import Mathlib

/-!
Shallow embedding of the financial-data pipeline core
(`src/pipeline.py`, class `FinancePipeline`) of the
financial-pipeline-tauri repository, together with theorems settling the
frozen claims about it.

Modelling conventions:
* The SQLite store is an explicit `Db` value holding the rows of the four
  tables the claims touch (`daily_prices`, `api_calls`, `watchlists`,
  `watchlist_symbols`); each table is its list of rows in rowid order,
  so an SQL `INSERT` appends and SQLite `INSERT OR REPLACE` deletes the
  conflicting row and appends the replacement (the fresh row gets a fresh,
  larger rowid).
* Python floats occurring in OHLCV values are stand-ins that the pipeline
  only stores and moves; no claim depends on float arithmetic, so price
  fields are modelled as `Int`.
* Timestamps written by `datetime.now().isoformat()` and compared with the
  SQL `>=` on ISO strings order exactly as the underlying instants, so
  they are modelled as `Int` (hours scale for the usage-window claims).
* The Yahoo-Finance collaborator `yf.Ticker(symbol).history(period)` is a
  pure oracle `hist : String → String → List Bar`; an empty result models
  both "no data" and an error payload, which is the only situation in
  which `fetch_prices_yahoo` raises after its import checks.
* A Python `raise` over the mutable store is modelled by returning the
  store state reached so far next to an `Except.error`; callers that
  `try/except` keep that state.
-/

namespace FinancePipeline

/-- One row of the `daily_prices` table:
`(symbol, timestamp, open, high, low, close, volume, source)`. -/
structure PriceRow where
  symbol : String
  timestamp : String
  openPrice : Int
  high : Int
  low : Int
  close : Int
  volume : Int
  source : String
deriving DecidableEq

/-- One row of the append-only `api_calls` table. -/
structure ApiCall where
  source : String
  endpoint : String
  symbol : String
  timestamp : Int
deriving DecidableEq

/-- One row of the `watchlists` table: `(id, name)`, `id` the SQLite rowid. -/
structure WatchlistRow where
  id : Nat
  name : String
deriving DecidableEq

/-- One row of the `watchlist_symbols` table: `(watchlist_id, symbol)`. -/
structure WatchlistSymbolRow where
  watchlist_id : Nat
  symbol : String
deriving DecidableEq

/-- The store state: the four tables the claims are about, each in rowid
order. -/
structure Db where
  daily_prices : List PriceRow
  api_calls : List ApiCall
  watchlists : List WatchlistRow
  watchlist_symbols : List WatchlistSymbolRow
deriving DecidableEq

/-- A fresh store. -/
def emptyDb : Db := ⟨[], [], [], []⟩

/-- One OHLCV bar as returned by the price-source collaborator
(`ticker.history`), already keyed by its `%Y-%m-%d` date string. -/
structure Bar where
  date : String
  openPrice : Int
  high : Int
  low : Int
  close : Int
  volume : Int
deriving DecidableEq

/-- The `daily_prices` row built from one source bar inside the insert loop
of `fetch_prices_yahoo` (source tag is the literal `yahoo_finance`). -/
def rowOfBar (symbol : String) (b : Bar) : PriceRow :=
  ⟨symbol, b.date, b.openPrice, b.high, b.low, b.close, b.volume, "yahoo_finance"⟩

/-- Does a `daily_prices` row have key `(s, d)` under `UNIQUE(symbol,timestamp)`? -/
def keyMatches (s d : String) (r : PriceRow) : Bool :=
  r.symbol == s && r.timestamp == d

/-- All rows of a `daily_prices` table with key `(s, d)`. -/
def keyRows (t : List PriceRow) (s d : String) : List PriceRow :=
  t.filter (keyMatches s d)

/-- All rows of a `daily_prices` table for one symbol. -/
def symRows (t : List PriceRow) (s : String) : List PriceRow :=
  t.filter (fun r => r.symbol == s)

/-- `INSERT OR REPLACE INTO daily_prices` keyed by `UNIQUE(symbol,timestamp)`:
SQLite deletes any conflicting row and inserts the new row with a fresh
rowid (hence at the end in rowid order). -/
def upsertPrice (t : List PriceRow) (r : PriceRow) : List PriceRow :=
  t.filter (fun q => !(q.symbol == r.symbol && q.timestamp == r.timestamp)) ++ [r]

/-- The insert loop of `fetch_prices_yahoo`: one upsert per bar of the
source result, in order. -/
def insertBars (t : List PriceRow) (symbol : String) (df : List Bar) : List PriceRow :=
  df.foldl (fun acc b => upsertPrice acc (rowOfBar symbol b)) t

/-- `FinancePipeline.log_api_call`: appends one `api_calls` row stamped
with the current time. -/
def log_api_call (db : Db) (source endpoint symbol : String) (now : Int) : Db :=
  { db with api_calls := db.api_calls ++ [⟨source, endpoint, symbol, now⟩] }

/-- `FinancePipeline.get_api_usage`: `SELECT COUNT(*) FROM api_calls WHERE
source = ? AND timestamp >= ?` with cutoff `now - timedelta(hours=hours)`. -/
def get_api_usage (db : Db) (now : Int) (source : String) (hours : Int) : Nat :=
  (db.api_calls.filter (fun c => c.source == source && decide (now - hours ≤ c.timestamp))).length

/-- `FinancePipeline.fetch_prices_yahoo`: raises when the source result is
empty (before logging and before any insert), otherwise logs one
`api_calls` row for `yahoo_finance` and upserts each bar, returning the
number of rows written. The pair's first component is the store state when
the call returns or raises. -/
def fetch_prices_yahoo (hist : String → String → List Bar) (now : Int)
    (db : Db) (symbol period : String) : Db × Except String Nat :=
  let df := hist symbol period
  if df.isEmpty then
    (db, Except.error ("No data returned for " ++ symbol))
  else
    let db1 := log_api_call db "yahoo_finance" "history" symbol now
    ({ db1 with daily_prices := insertBars db1.daily_prices symbol df },
      Except.ok df.length)

/-- The loop body of `fetch_prices_batch_yahoo`: one `fetch_prices_yahoo`
call inside `try/except`, incrementing the success or fail counter; the
store state produced by the call is kept either way. -/
def batchStep (hist : String → String → List Bar) (now : Int) (period : String)
    (acc : Db × Nat × Nat) (symbol : String) : Db × Nat × Nat :=
  match fetch_prices_yahoo hist now acc.1 symbol period with
  | (d, Except.ok _) => (d, acc.2.1 + 1, acc.2.2)
  | (d, Except.error _) => (d, acc.2.1, acc.2.2 + 1)

/-- `FinancePipeline.fetch_prices_batch_yahoo`: sequential fold of
`batchStep` over the symbols, starting from zero success/fail counts.
Returns the final store and the aggregate `(success_count, fail_count)`. -/
def fetch_prices_batch_yahoo (hist : String → String → List Bar) (now : Int)
    (db : Db) (symbols : List String) (period : String) : Db × Nat × Nat :=
  symbols.foldl (batchStep hist now period) (db, 0, 0)

/-- `FinancePipeline.clear_symbol_prices`:
`DELETE FROM daily_prices WHERE symbol = ?`. -/
def clear_symbol_prices (db : Db) (symbol : String) : Db :=
  { db with daily_prices := db.daily_prices.filter (fun r => !(r.symbol == symbol)) }

/-- The loop body of `refetch_all_symbols_yahoo`: inside `try/except`,
clear the symbol's rows, then fetch; on failure the cleared state reached
by the raise is kept. -/
def refetchStep (hist : String → String → List Bar) (now : Int) (period : String)
    (acc : Db × Nat × Nat) (symbol : String) : Db × Nat × Nat :=
  let d0 := clear_symbol_prices acc.1 symbol
  match fetch_prices_yahoo hist now d0 symbol period with
  | (d, Except.ok _) => (d, acc.2.1 + 1, acc.2.2)
  | (d, Except.error _) => (d, acc.2.1, acc.2.2 + 1)

/-- `SELECT DISTINCT symbol FROM daily_prices` (first-occurrence order). -/
def distinctSymbols (rows : List PriceRow) : List String :=
  rows.foldl (fun acc r => if r.symbol ∈ acc then acc else acc ++ [r.symbol]) []

/-- `FinancePipeline.refetch_all_symbols_yahoo`: defaults to the distinct
symbols already present when no list is given, then folds `refetchStep`
sequentially, returning the final store and `(success_count, fail_count)`. -/
def refetch_all_symbols_yahoo (hist : String → String → List Bar) (now : Int)
    (db : Db) (symbols : Option (List String)) (period : String) : Db × Nat × Nat :=
  let syms := match symbols with
    | some l => l
    | none => distinctSymbols db.daily_prices
  syms.foldl (refetchStep hist now period) (db, 0, 0)

/-- SQLite rowid assignment for an `INTEGER PRIMARY KEY` column without
`AUTOINCREMENT` (the conceptual schema declares `watchlists(id PK, name
UNIQUE)` only): one more than the largest rowid currently in use, `1` for
an empty table — so a deleted maximal id is reused. -/
def nextRowId (wls : List WatchlistRow) : Nat :=
  (wls.foldl (fun m w => max m w.id) 0) + 1

/-- `FinancePipeline.create_watchlist`: `DELETE FROM watchlists WHERE name
= ?` (the header row only — nothing is deleted from `watchlist_symbols`),
then `INSERT INTO watchlists (name)`, then one `INSERT INTO
watchlist_symbols (watchlist_id, symbol)` per symbol using
`cursor.lastrowid`. -/
def create_watchlist (db : Db) (name : String) (symbols : List String) : Db :=
  let wls1 := db.watchlists.filter (fun w => !(w.name == name))
  let newId := nextRowId wls1
  { db with
      watchlists := wls1 ++ [⟨newId, name⟩],
      watchlist_symbols :=
        db.watchlist_symbols ++ symbols.map (fun s => ⟨newId, s⟩) }

/-- `FinancePipeline.get_watchlist`: `SELECT ws.symbol FROM watchlists w
JOIN watchlist_symbols ws ON w.id = ws.watchlist_id WHERE w.name = ?`,
`[]` when the join is empty. -/
def get_watchlist (db : Db) (name : String) : List String :=
  (db.watchlists.filter (fun w => w.name == name)).foldl
    (fun acc w =>
      acc ++ (db.watchlist_symbols.filter (fun ws => ws.watchlist_id == w.id)).map
        (fun ws => ws.symbol))
    []

/-- Connection-manager state: the stored handle (`self.conn`, `None` when
disconnected) and how many store connections have been opened so far;
handles are numbered by creation order, so `sqlite3.connect` always yields
a fresh handle. -/
structure ConnState where
  conn : Option Nat
  opened : Nat
deriving DecidableEq

/-- `FinancePipeline.connect`: unconditionally calls `sqlite3.connect`,
stores the fresh handle in `self.conn`, and returns it. -/
def connect (s : ConnState) : ConnState × Nat :=
  (⟨some s.opened, s.opened + 1⟩, s.opened)

/-- `FinancePipeline.disconnect`: closes and clears `self.conn` when set,
otherwise does nothing. -/
def disconnect (s : ConnState) : ConnState :=
  match s.conn with
  | some _ => { s with conn := none }
  | none => s

/-- Schema-manager state: which tables and indexes exist in the store. -/
structure Schema where
  tables : List String
  indexes : List String
deriving DecidableEq

/-- `CREATE TABLE IF NOT EXISTS` / `CREATE INDEX IF NOT EXISTS`. -/
def createIfAbsent (l : List String) (x : String) : List String :=
  if x ∈ l then l else l ++ [x]

/-- The six entity tables of the conceptual schema. -/
def entityTables : List String :=
  ["symbols", "daily_prices", "macro_data", "watchlists", "watchlist_symbols", "api_calls"]

/-- The indexes the spec requires at minimum: on the date column of
`daily_prices` and on the watchlist name. -/
def schemaIndexes : List String :=
  ["idx_daily_prices_timestamp", "idx_watchlists_name"]

/-- Modelled from the spec: `init_schema` is invoked by
`scripts/init_db.py` but its body is not part of the repository snapshot;
per the spec it creates all six entity tables and the needed indexes with
create-if-absent semantics. -/
def init_schema (s : Schema) : Schema :=
  { tables := entityTables.foldl createIfAbsent s.tables,
    indexes := schemaIndexes.foldl createIfAbsent s.indexes }

/-- The last bar of a source result carrying a given date — the row the
upsert loop leaves in place when several bars share a date. -/
def lastBarAt (df : List Bar) (d : String) : Option Bar :=
  match df with
  | [] => none
  | b :: bs =>
    match lastBarAt bs d with
    | some c => some c
    | none => if b.date == d then some b else none

/-- Store state reached by `fetch_prices_yahoo`, whether it returns or
raises. -/
def fetchState (hist : String → String → List Bar) (now : Int)
    (db : Db) (symbol period : String) : Db :=
  (fetch_prices_yahoo hist now db symbol period).1

/-- The `UNIQUE(symbol,timestamp)` invariant: at most one `daily_prices`
row per key. -/
def UniqueKeys (db : Db) : Prop :=
  ∀ s d, (keyRows db.daily_prices s d).length ≤ 1

/-- Concrete bar fixture. -/
def bar1 : Bar := ⟨"2024-01-02", 10, 12, 9, 11, 1000⟩

/-- Concrete bar fixture, second trading day. -/
def bar2 : Bar := ⟨"2024-01-03", 11, 13, 10, 12, 1100⟩

/-- Concrete price-source fixture: symbol `B` yields no rows, every other
symbol yields two bars. -/
def histW : String → String → List Bar :=
  fun symbol _ => if symbol = "B" then [] else [bar1, bar2]

/-- Concrete store fixture holding one stale price row for symbol `B`. -/
def dbWithB : Db :=
  ⟨[⟨"B", "2023-12-29", 5, 6, 4, 5, 900, "yahoo_finance"⟩], [], [], []⟩

/-- Concrete `api_calls` fixture for the usage-window scenario: calls for
source `X` at `t − 30`, `t − 10` and `t − 1` hours plus arbitrary records
of other sources. -/
def usageDb (t : Int) (others : List ApiCall) : Db :=
  ⟨[], [⟨"X", "history", "AAPL", t - 30⟩, ⟨"X", "history", "MSFT", t - 10⟩,
        ⟨"X", "history", "GOOGL", t - 1⟩] ++ others, [], []⟩

/-- Concrete store fixture with a watchlist header that has no members. -/
def dbEmptyWatchlist : Db := ⟨[], [], [⟨1, "empty"⟩], []⟩

/-- Concrete fully-initialized schema fixture. -/
def schemaInit : Schema := ⟨entityTables, schemaIndexes⟩

/-! Helper lemmas about the key-indexed view of `daily_prices`. -/

theorem keyRows_nil (s d : String) : keyRows [] s d = [] := rfl

theorem keyRows_append (t u : List PriceRow) (s d : String) :
    keyRows (t ++ u) s d = keyRows t s d ++ keyRows u s d := by
  simp [keyRows, List.filter_append]

theorem keyRows_upsert (t : List PriceRow) (r : PriceRow) (s d : String) :
    keyRows (upsertPrice t r) s d =
      if r.symbol = s ∧ r.timestamp = d then [r] else keyRows t s d := by
  induction t with
  | nil =>
    by_cases h : r.symbol = s ∧ r.timestamp = d
    · simp [keyRows, upsertPrice, keyMatches, h.1, h.2]
    · rw [if_neg h]
      rcases not_and_or.mp h with hs | hd
      · simp [keyRows, upsertPrice, keyMatches, hs]
      · simp [keyRows, upsertPrice, keyMatches, hd]
  | cons q qs ih =>
    by_cases hq : q.symbol = r.symbol ∧ q.timestamp = r.timestamp
    · have hqs : upsertPrice (q :: qs) r = upsertPrice qs r := by
        simp [upsertPrice, hq.1, hq.2]
      rw [hqs, ih]
      by_cases h : r.symbol = s ∧ r.timestamp = d
      · simp [h]
      · rw [if_neg h, if_neg h]
        have hqk : keyMatches s d q = false := by
          rcases not_and_or.mp h with hs | hd
          · simp [keyMatches, hq.1, hs]
          · simp [keyMatches, hq.2, hd]
        simp [keyRows, List.filter_cons, hqk]
    · have hqs : upsertPrice (q :: qs) r = q :: upsertPrice qs r := by
        rcases not_and_or.mp hq with hs | hd
        · simp [upsertPrice, hs]
        · simp [upsertPrice, hd]
      rw [hqs]
      by_cases hk : keyMatches s d q = true
      · have hkk : (q.symbol = s ∧ q.timestamp = d) := by
          simpa [keyMatches] using hk
        have h : ¬(r.symbol = s ∧ r.timestamp = d) := by
          intro hc
          exact hq ⟨hkk.1.trans hc.1.symm, hkk.2.trans hc.2.symm⟩
        rw [if_neg h]
        rw [if_neg h] at ih
        simp [keyRows, List.filter_cons, hk] at ih ⊢
        exact ih
      · have hk2 : keyMatches s d q = false := by
          cases hkb : keyMatches s d q
          · rfl
          · exact absurd hkb hk
        by_cases h : r.symbol = s ∧ r.timestamp = d
        · rw [if_pos h]
          rw [if_pos h] at ih
          simp [keyRows, List.filter_cons, hk2] at ih ⊢
          exact ih
        · rw [if_neg h]
          rw [if_neg h] at ih
          simp [keyRows, List.filter_cons, hk2] at ih ⊢
          exact ih

theorem keyRows_insertBars (symbol s d : String) (df : List Bar) :
    ∀ t : List PriceRow,
      keyRows (insertBars t symbol df) s d =
        match lastBarAt df d with
        | some b => if symbol = s then [rowOfBar symbol b] else keyRows t s d
        | none => keyRows t s d := by
  induction df with
  | nil => intro t; rfl
  | cons b bs ih =>
    intro t
    have hstep : insertBars t symbol (b :: bs) =
        insertBars (upsertPrice t (rowOfBar symbol b)) symbol bs := rfl
    rw [hstep, ih]
    have hup : keyRows (upsertPrice t (rowOfBar symbol b)) s d =
        if symbol = s ∧ b.date = d then [rowOfBar symbol b] else keyRows t s d := by
      simpa [rowOfBar] using keyRows_upsert t (rowOfBar symbol b) s d
    cases hbs : lastBarAt bs d with
    | some c =>
      have hl : lastBarAt (b :: bs) d = some c := by
        simp [lastBarAt, hbs]
      rw [hl]
      by_cases hsym : symbol = s
      · simp [hsym]
      · simp [hsym, hup, hsym]
    | none =>
      by_cases hdate : b.date = d
      · have hl : lastBarAt (b :: bs) d = some b := by
          simp [lastBarAt, hbs, hdate]
        rw [hl, hup]
        by_cases hsym : symbol = s
        · simp [hsym, hdate]
        · simp [hsym, hdate]
      · have hl : lastBarAt (b :: bs) d = none := by
          simp [lastBarAt, hbs, hdate]
        rw [hl, hup]
        simp [hdate]

/-! How one `fetch_prices_yahoo` call acts on each table. -/

theorem fetch_daily_prices (hist : String → String → List Bar) (now : Int)
    (db : Db) (symbol period : String) :
    (fetch_prices_yahoo hist now db symbol period).1.daily_prices =
      if (hist symbol period).isEmpty then db.daily_prices
      else insertBars db.daily_prices symbol (hist symbol period) := by
  by_cases h : (hist symbol period).isEmpty
  · simp [fetch_prices_yahoo, h]
  · simp [fetch_prices_yahoo, h, log_api_call]

theorem fetch_api_calls (hist : String → String → List Bar) (now : Int)
    (db : Db) (symbol period : String) :
    (fetch_prices_yahoo hist now db symbol period).1.api_calls =
      if (hist symbol period).isEmpty then db.api_calls
      else db.api_calls ++ [⟨"yahoo_finance", "history", symbol, now⟩] := by
  by_cases h : (hist symbol period).isEmpty
  · simp [fetch_prices_yahoo, h]
  · simp [fetch_prices_yahoo, h, log_api_call]

theorem fetch_result (hist : String → String → List Bar) (now : Int)
    (db : Db) (symbol period : String) :
    (fetch_prices_yahoo hist now db symbol period).2 =
      if (hist symbol period).isEmpty then
        Except.error ("No data returned for " ++ symbol)
      else Except.ok (hist symbol period).length := by
  by_cases h : (hist symbol period).isEmpty
  · simp [fetch_prices_yahoo, h]
  · simp [fetch_prices_yahoo, h]

theorem keyRows_fetchState (hist : String → String → List Bar) (now : Int)
    (db : Db) (symbol period s d : String) :
    keyRows (fetchState hist now db symbol period).daily_prices s d =
      match lastBarAt (hist symbol period) d with
      | some b => if symbol = s then [rowOfBar symbol b] else keyRows db.daily_prices s d
      | none => keyRows db.daily_prices s d := by
  rw [fetchState, fetch_daily_prices]
  by_cases h : (hist symbol period).isEmpty
  · have he : hist symbol period = [] := List.isEmpty_iff.mp h
    rw [if_pos h, he]
    rfl
  · rw [if_neg h]
    exact keyRows_insertBars symbol s d (hist symbol period) db.daily_prices

/-- C2. Price-ingestion idempotence and key uniqueness: against a fixed
source snapshot `hist`, ingesting twice leaves for every `(s, d)` exactly
the `daily_prices` rows a single ingestion leaves; ingestion preserves the
one-row-per-`(symbol, timestamp)` invariant; and whenever the snapshot
carries a bar for date `d`, the `(symbol, d)` rows after ingestion are
exactly the single row built from that (last such) bar — an overwrite of
any prior row for that key, never a duplicate. -/
theorem fetch_prices_idempotent_unique_overwrite
    (hist : String → String → List Bar) (now1 now2 : Int) (db : Db)
    (symbol period : String) (hU : UniqueKeys db) :
    (∀ s d, keyRows
        (fetchState hist now2 (fetchState hist now1 db symbol period) symbol period).daily_prices s d
      = keyRows (fetchState hist now1 db symbol period).daily_prices s d) ∧
    UniqueKeys (fetchState hist now1 db symbol period) ∧
    (∀ d b, lastBarAt (hist symbol period) d = some b →
      keyRows (fetchState hist now1 db symbol period).daily_prices symbol d
        = [rowOfBar symbol b]) := by
  refine ⟨?_, ?_, ?_⟩
  · intro s d
    have h2 := keyRows_fetchState hist now2 (fetchState hist now1 db symbol period)
      symbol period s d
    have h1 := keyRows_fetchState hist now1 db symbol period s d
    rw [h2, h1]
    cases hb : lastBarAt (hist symbol period) d with
    | some b => by_cases hs : symbol = s <;> simp [hs]
    | none => rfl
  · intro s d
    have h1 := keyRows_fetchState hist now1 db symbol period s d
    rw [h1]
    cases hb : lastBarAt (hist symbol period) d with
    | some b =>
      by_cases hs : symbol = s
      · simp [hs]
      · simpa [hs] using hU s d
    | none => exact hU s d
  · intro d b hb
    have h1 := keyRows_fetchState hist now1 db symbol period symbol d
    rw [h1, hb]
    simp

/-- Closed witness for C2 at the concrete snapshot `histW`, symbol `A`,
starting from the empty store. -/
theorem fetch_prices_idempotent_unique_overwrite_witness :
    UniqueKeys emptyDb ∧
    ((∀ s d, keyRows
        (fetchState histW 1 (fetchState histW 0 emptyDb "A" "1y") "A" "1y").daily_prices s d
      = keyRows (fetchState histW 0 emptyDb "A" "1y").daily_prices s d) ∧
    UniqueKeys (fetchState histW 0 emptyDb "A" "1y") ∧
    (∀ d b, lastBarAt (histW "A" "1y") d = some b →
      keyRows (fetchState histW 0 emptyDb "A" "1y").daily_prices "A" d
        = [rowOfBar "A" b])) :=
  ⟨fun s d => by simp [keyRows, emptyDb],
    fetch_prices_idempotent_unique_overwrite histW 0 1 emptyDb "A" "1y"
      (fun s d => by simp [keyRows, emptyDb])⟩

/-- C4. `fetchOne` contract: when the source snapshot for the symbol is
non-empty, `fetch_prices_yahoo` returns the number of rows written (the
snapshot length), appends exactly one `api_calls` record for
`yahoo_finance`, and upserts each bar keyed by `(symbol, date)` — every
key carried by the snapshot ends up with exactly the row of its last bar
and every other key is untouched. When the snapshot is empty it fails
with the fetch error. -/
theorem fetch_one_contract (hist : String → String → List Bar) (now : Int)
    (db : Db) (symbol period : String) :
    (hist symbol period ≠ [] →
      (fetch_prices_yahoo hist now db symbol period).2
          = Except.ok (hist symbol period).length ∧
      (fetch_prices_yahoo hist now db symbol period).1.api_calls
          = db.api_calls ++ [⟨"yahoo_finance", "history", symbol, now⟩] ∧
      (∀ s d, keyRows (fetch_prices_yahoo hist now db symbol period).1.daily_prices s d =
        match lastBarAt (hist symbol period) d with
        | some b => if symbol = s then [rowOfBar symbol b] else keyRows db.daily_prices s d
        | none => keyRows db.daily_prices s d)) ∧
    (hist symbol period = [] →
      (fetch_prices_yahoo hist now db symbol period).2
          = Except.error ("No data returned for " ++ symbol)) := by
  constructor
  · intro hne
    have hni : ¬(hist symbol period).isEmpty = true := by
      simpa [List.isEmpty_iff] using hne
    refine ⟨?_, ?_, ?_⟩
    · rw [fetch_result, if_neg hni]
    · rw [fetch_api_calls, if_neg hni]
    · intro s d
      simpa [fetchState] using keyRows_fetchState hist now db symbol period s d
  · intro he
    rw [fetch_result]
    simp [he]

/-- Closed witness for C4: symbol `A` of `histW` has two bars and yields
an `ok 2` with one logged call; symbol `B` has no bars and yields the
fetch error. -/
theorem fetch_one_contract_witness :
    histW "A" "1y" ≠ [] ∧ histW "B" "1y" = [] ∧
    (fetch_prices_yahoo histW 0 emptyDb "A" "1y").2 = Except.ok 2 ∧
    (fetch_prices_yahoo histW 0 emptyDb "A" "1y").1.api_calls
        = [⟨"yahoo_finance", "history", "A", 0⟩] ∧
    (fetch_prices_yahoo histW 0 emptyDb "B" "1y").2
        = Except.error "No data returned for B" := by
  have hA := (fetch_one_contract histW 0 emptyDb "A" "1y").1 (by decide)
  have hB := (fetch_one_contract histW 0 emptyDb "B" "1y").2 rfl
  exact ⟨by decide, rfl, hA.1.trans rfl, hA.2.1.trans rfl, hB.trans rfl⟩

/-- C8. Empty-fetch atomicity: when the source returns no rows,
`fetch_prices_yahoo` raises before logging any `api_calls` record and
before writing any price row, leaving the store exactly as it was. -/
theorem empty_fetch_leaves_store_unchanged (hist : String → String → List Bar)
    (now : Int) (db : Db) (symbol period : String)
    (h : hist symbol period = []) :
    fetch_prices_yahoo hist now db symbol period
        = (db, Except.error ("No data returned for " ++ symbol)) ∧
    (fetch_prices_yahoo hist now db symbol period).1.api_calls = db.api_calls ∧
    (fetch_prices_yahoo hist now db symbol period).1.daily_prices = db.daily_prices := by
  have hmain : fetch_prices_yahoo hist now db symbol period
      = (db, Except.error ("No data returned for " ++ symbol)) := by
    simp [fetch_prices_yahoo, h]
  exact ⟨hmain, by rw [hmain], by rw [hmain]⟩

/-- Closed witness for C8 at symbol `B` of `histW` over a store already
holding a price row and an api call. -/
theorem empty_fetch_leaves_store_unchanged_witness :
    histW "B" "1y" = [] ∧
    (fetch_prices_yahoo histW 7 dbWithB "B" "1y"
        = (dbWithB, Except.error ("No data returned for " ++ "B")) ∧
    (fetch_prices_yahoo histW 7 dbWithB "B" "1y").1.api_calls = dbWithB.api_calls ∧
    (fetch_prices_yahoo histW 7 dbWithB "B" "1y").1.daily_prices = dbWithB.daily_prices) :=
  ⟨rfl, empty_fetch_leaves_store_unchanged histW 7 dbWithB "B" "1y" rfl⟩

/-! Helper lemmas about the batch loop. -/

theorem fetchState_of_empty (hist : String → String → List Bar) (now : Int)
    (db : Db) (symbol period : String) (h : hist symbol period = []) :
    fetchState hist now db symbol period = db := by
  simp [fetchState, fetch_prices_yahoo, h]

theorem batchStep_fst (hist : String → String → List Bar) (now : Int) (period : String)
    (acc : Db × Nat × Nat) (symbol : String) :
    (batchStep hist now period acc symbol).1 = fetchState hist now acc.1 symbol period := by
  unfold batchStep fetchState
  rcases hf : fetch_prices_yahoo hist now acc.1 symbol period with ⟨d, r⟩
  cases r <;> simp

theorem batchStep_of_empty (hist : String → String → List Bar) (now : Int) (period : String)
    (acc : Db × Nat × Nat) (symbol : String) (h : (hist symbol period).isEmpty = true) :
    batchStep hist now period acc symbol = (acc.1, acc.2.1, acc.2.2 + 1) := by
  have he : hist symbol period = [] := List.isEmpty_iff.mp h
  simp [batchStep, fetch_prices_yahoo, he]

theorem batchStep_of_nonempty (hist : String → String → List Bar) (now : Int) (period : String)
    (acc : Db × Nat × Nat) (symbol : String) (h : ¬(hist symbol period).isEmpty = true) :
    batchStep hist now period acc symbol
      = (fetchState hist now acc.1 symbol period, acc.2.1 + 1, acc.2.2) := by
  simp [batchStep, fetch_prices_yahoo, h, fetchState]

theorem batch_counts (hist : String → String → List Bar) (now : Int) (period : String)
    (symbols : List String) :
    ∀ acc : Db × Nat × Nat,
      (symbols.foldl (batchStep hist now period) acc).2.1
        = acc.2.1 + (symbols.filter (fun sym => !(hist sym period).isEmpty)).length ∧
      (symbols.foldl (batchStep hist now period) acc).2.2
        = acc.2.2 + (symbols.filter (fun sym => (hist sym period).isEmpty)).length := by
  induction symbols with
  | nil => intro acc; simp
  | cons sym rest ih =>
    intro acc
    by_cases h : (hist sym period).isEmpty = true
    · rw [List.foldl_cons, batchStep_of_empty hist now period acc sym h]
      constructor
      · rw [(ih _).1]; simp [List.filter_cons, h]
      · rw [(ih _).2]; simp [List.filter_cons, h]; omega
    · rw [List.foldl_cons, batchStep_of_nonempty hist now period acc sym h]
      constructor
      · rw [(ih _).1]; simp [List.filter_cons, h]; omega
      · rw [(ih _).2]; simp [List.filter_cons, h]

theorem batch_db_counters (hist : String → String → List Bar) (now : Int) (period : String)
    (symbols : List String) :
    ∀ (db : Db) (c1 c2 c3 c4 : Nat),
      (symbols.foldl (batchStep hist now period) (db, c1, c2)).1
        = (symbols.foldl (batchStep hist now period) (db, c3, c4)).1 := by
  induction symbols with
  | nil => intro db c1 c2 c3 c4; rfl
  | cons sym rest ih =>
    intro db c1 c2 c3 c4
    by_cases h : (hist sym period).isEmpty = true
    · rw [List.foldl_cons, List.foldl_cons, batchStep_of_empty hist now period _ sym h,
        batchStep_of_empty hist now period _ sym h]
      exact ih db _ _ _ _
    · rw [List.foldl_cons, List.foldl_cons, batchStep_of_nonempty hist now period _ sym h,
        batchStep_of_nonempty hist now period _ sym h]
      exact ih _ _ _ _ _

theorem batch_db_filter (hist : String → String → List Bar) (now : Int) (period : String)
    (symbols : List String) :
    ∀ (db : Db) (c1 c2 : Nat),
      (symbols.foldl (batchStep hist now period) (db, c1, c2)).1
        = ((symbols.filter (fun sym => !(hist sym period).isEmpty)).foldl
            (batchStep hist now period) (db, c1, c2)).1 := by
  induction symbols with
  | nil => intro db c1 c2; rfl
  | cons sym rest ih =>
    intro db c1 c2
    by_cases h : (hist sym period).isEmpty = true
    · rw [List.foldl_cons, batchStep_of_empty hist now period _ sym h]
      have hfil : (sym :: rest).filter (fun sym => !(hist sym period).isEmpty)
          = rest.filter (fun sym => !(hist sym period).isEmpty) := by
        simp [List.filter_cons, h]
      rw [hfil, batch_db_counters hist now period rest db c1 (c2 + 1) c1 c2]
      exact ih db c1 c2
    · have hfil : (sym :: rest).filter (fun sym => !(hist sym period).isEmpty)
          = sym :: rest.filter (fun sym => !(hist sym period).isEmpty) := by
        simp [List.filter_cons, h]
      rw [hfil, List.foldl_cons, List.foldl_cons,
        batchStep_of_nonempty hist now period _ sym h]
      exact ih _ _ _

theorem length_filter_not_add {α : Type} (p : α → Bool) (l : List α) :
    (l.filter (fun a => !(p a))).length + (l.filter p).length = l.length := by
  induction l with
  | nil => rfl
  | cons a l ih => cases h : p a <;> simp [List.filter_cons, h] <;> omega

/-- C3. Batch failure isolation and aggregate result: the batch call is a
total function (every per-symbol failure is caught by the surrounding
`try/except`), its success count is the number of symbols whose snapshot
is non-empty, its fail count the number whose snapshot is empty, the two
sum to the number of symbols (every symbol is attempted), and the final
store is exactly the store produced by running only the succeeding
symbols — a failing symbol neither destroys rows written earlier nor
prevents later symbols from being processed. -/
theorem fetch_batch_failure_isolation (hist : String → String → List Bar)
    (now : Int) (db : Db) (symbols : List String) (period : String) :
    (fetch_prices_batch_yahoo hist now db symbols period).2.1
        = (symbols.filter (fun sym => !(hist sym period).isEmpty)).length ∧
    (fetch_prices_batch_yahoo hist now db symbols period).2.2
        = (symbols.filter (fun sym => (hist sym period).isEmpty)).length ∧
    (fetch_prices_batch_yahoo hist now db symbols period).2.1
        + (fetch_prices_batch_yahoo hist now db symbols period).2.2 = symbols.length ∧
    (fetch_prices_batch_yahoo hist now db symbols period).1
        = (fetch_prices_batch_yahoo hist now db
            (symbols.filter (fun sym => !(hist sym period).isEmpty)) period).1 := by
  have hc := batch_counts hist now period symbols (db, 0, 0)
  refine ⟨?_, ?_, ?_, ?_⟩
  · simpa [fetch_prices_batch_yahoo] using hc.1
  · simpa [fetch_prices_batch_yahoo] using hc.2
  · have hlen := length_filter_not_add (fun sym => (hist sym period).isEmpty) symbols
    have h1 : (fetch_prices_batch_yahoo hist now db symbols period).2.1
        = (symbols.filter (fun sym => !(hist sym period).isEmpty)).length := by
      simpa [fetch_prices_batch_yahoo] using hc.1
    have h2 : (fetch_prices_batch_yahoo hist now db symbols period).2.2
        = (symbols.filter (fun sym => (hist sym period).isEmpty)).length := by
      simpa [fetch_prices_batch_yahoo] using hc.2
    omega
  · simpa [fetch_prices_batch_yahoo] using batch_db_filter hist now period symbols db 0 0

/-! Helper lemmas about the per-symbol view of `daily_prices` and the
refetch loop. -/

theorem symRows_upsert (t : List PriceRow) (r : PriceRow) (s : String)
    (h : r.symbol ≠ s) : symRows (upsertPrice t r) s = symRows t s := by
  unfold symRows upsertPrice
  rw [List.filter_append, List.filter_filter]
  have hsingle : List.filter (fun q => q.symbol == s) [r] = [] := by
    simp [h]
  rw [hsingle, List.append_nil]
  apply List.filter_congr
  intro a _
  by_cases ha : a.symbol = s
  · have hne : ((s == r.symbol) : Bool) = false :=
      beq_eq_false_iff_ne.mpr (fun c => h c.symm)
    simp [ha, hne]
  · simp [ha]

theorem symRows_insertBars (symbol s : String) (h : symbol ≠ s) (df : List Bar) :
    ∀ t : List PriceRow, symRows (insertBars t symbol df) s = symRows t s := by
  induction df with
  | nil => intro t; rfl
  | cons b bs ih =>
    intro t
    have hstep : insertBars t symbol (b :: bs) =
        insertBars (upsertPrice t (rowOfBar symbol b)) symbol bs := rfl
    rw [hstep, ih, symRows_upsert]
    exact h

theorem symRows_fetchState (hist : String → String → List Bar) (now : Int)
    (db : Db) (symbol period s : String) (h : symbol ≠ s) :
    symRows (fetchState hist now db symbol period).daily_prices s
      = symRows db.daily_prices s := by
  rw [fetchState, fetch_daily_prices]
  by_cases he : (hist symbol period).isEmpty
  · rw [if_pos he]
  · rw [if_neg he]
    exact symRows_insertBars symbol s h (hist symbol period) db.daily_prices

theorem symRows_clear (db : Db) (symbol s : String) :
    symRows (clear_symbol_prices db symbol).daily_prices s
      = if symbol = s then [] else symRows db.daily_prices s := by
  unfold symRows clear_symbol_prices
  simp only []
  rw [List.filter_filter]
  by_cases h : symbol = s
  · rw [if_pos h]
    apply List.filter_eq_nil_iff.mpr
    intro a _
    simp [h]
  · rw [if_neg h]
    apply List.filter_congr
    intro a _
    by_cases ha : a.symbol = s
    · have hne : ((s == symbol) : Bool) = false :=
        beq_eq_false_iff_ne.mpr (fun c => h c.symm)
      simp [ha, hne]
    · simp [ha]

theorem refetchStep_fst (hist : String → String → List Bar) (now : Int) (period : String)
    (acc : Db × Nat × Nat) (symbol : String) :
    (refetchStep hist now period acc symbol).1
      = fetchState hist now (clear_symbol_prices acc.1 symbol) symbol period := by
  unfold refetchStep fetchState
  dsimp only
  rcases hf : fetch_prices_yahoo hist now (clear_symbol_prices acc.1 symbol) symbol period
    with ⟨d, r⟩
  cases r <;> rfl

theorem refetchStep_fail_count (hist : String → String → List Bar) (now : Int)
    (period : String) (acc : Db × Nat × Nat) (symbol : String)
    (h : hist symbol period = []) :
    (refetchStep hist now period acc symbol).2 = (acc.2.1, acc.2.2 + 1) := by
  simp [refetchStep, fetch_prices_yahoo, h]

theorem refetch_fail_mono (hist : String → String → List Bar) (now : Int)
    (period : String) (syms : List String) :
    ∀ acc : Db × Nat × Nat,
      acc.2.2 ≤ (syms.foldl (refetchStep hist now period) acc).2.2 := by
  induction syms with
  | nil => intro acc; exact Nat.le_refl _
  | cons t ts ih =>
    intro acc
    have hstep : acc.2.2 ≤ (refetchStep hist now period acc t).2.2 := by
      unfold refetchStep
      dsimp only
      rcases hf : fetch_prices_yahoo hist now (clear_symbol_prices acc.1 t) t period
        with ⟨d, r⟩
      cases r <;> simp
    exact hstep.trans (ih _)

theorem refetch_fold_no_rows (hist : String → String → List Bar) (now : Int)
    (period sym : String) (syms : List String) :
    ∀ acc : Db × Nat × Nat, sym ∉ syms →
      symRows acc.1.daily_prices sym = [] →
      symRows ((syms.foldl (refetchStep hist now period) acc).1).daily_prices sym = [] := by
  induction syms with
  | nil => intro acc _ hrows; exact hrows
  | cons t ts ih =>
    intro acc hmem hrows
    have ht : t ≠ sym := by
      intro c
      exact hmem (c ▸ List.mem_cons_self t ts)
    refine ih _ (fun c => hmem (List.mem_cons_of_mem t c)) ?_
    rw [refetchStep_fst, symRows_fetchState hist now _ t period sym ht, symRows_clear,
      if_neg ht]
    exact hrows

/-- C9. Refetch non-atomicity per symbol: inside `refetch_all_symbols_yahoo`
a symbol's existing rows are deleted before the fetch is attempted, so a
symbol whose fetch fails (and does not recur later in the list) ends the
refetch with no `daily_prices` rows at all — its previous data is not
restored — while the failure is recorded in the fail count. -/
theorem refetch_failure_clears_symbol (hist : String → String → List Bar)
    (now : Int) (db : Db) (l1 l2 : List String) (sym period : String)
    (hfail : hist sym period = []) (hnot : sym ∉ l2) :
    symRows (refetch_all_symbols_yahoo hist now db (some (l1 ++ sym :: l2))
        period).1.daily_prices sym = [] ∧
    1 ≤ (refetch_all_symbols_yahoo hist now db (some (l1 ++ sym :: l2)) period).2.2 := by
  have hun : refetch_all_symbols_yahoo hist now db (some (l1 ++ sym :: l2)) period
      = (sym :: l2).foldl (refetchStep hist now period)
          (l1.foldl (refetchStep hist now period) (db, 0, 0)) := by
    unfold refetch_all_symbols_yahoo
    rw [List.foldl_append]
  rw [hun, List.foldl_cons]
  constructor
  · apply refetch_fold_no_rows hist now period sym l2 _ hnot
    rw [refetchStep_fst, fetchState_of_empty hist now _ sym period hfail, symRows_clear,
      if_pos rfl]
  · have hstep := refetchStep_fail_count hist now period
      (l1.foldl (refetchStep hist now period) (db, 0, 0)) sym hfail
    have hcount : (refetchStep hist now period
        (l1.foldl (refetchStep hist now period) (db, 0, 0)) sym).2.2
        = (l1.foldl (refetchStep hist now period) (db, 0, 0)).2.2 + 1 := by
      rw [hstep]
    have hmono := refetch_fail_mono hist now period l2
      (refetchStep hist now period (l1.foldl (refetchStep hist now period) (db, 0, 0)) sym)
    omega

/-- Closed witness for C9: refetching `[A, B, C]` where `B` yields no rows
leaves `B`, which had a stale row in the store, with no rows at all and a
positive fail count. -/
theorem refetch_failure_clears_symbol_witness :
    histW "B" "1y" = [] ∧ ("B" : String) ∉ (["C"] : List String) ∧
    (symRows (refetch_all_symbols_yahoo histW 0 dbWithB (some (["A"] ++ "B" :: ["C"]))
        "1y").1.daily_prices "B" = [] ∧
    1 ≤ (refetch_all_symbols_yahoo histW 0 dbWithB (some (["A"] ++ "B" :: ["C"])) "1y").2.2) :=
  ⟨rfl, by decide,
    refetch_failure_clears_symbol histW 0 dbWithB ["A"] ["C"] "B" "1y" rfl (by decide)⟩

/-! Helper lemma for the watchlist read. -/

theorem foldl_append_map_empty {α β : Type} (f : α → List β) (l : List α)
    (h : ∀ a ∈ l, f a = []) :
    ∀ acc : List β, l.foldl (fun acc a => acc ++ f a) acc = acc := by
  induction l with
  | nil => intro acc; rfl
  | cons a as ih =>
    intro acc
    rw [List.foldl_cons, h a (List.mem_cons_self a as), List.append_nil]
    exact ih (fun x hx => h x (List.mem_cons_of_mem a hx)) acc

/-- C10. Unknown-watchlist read: whenever no membership row is attached to
any header carrying the requested name — in particular when the name has
no header at all, or a header with no members — `get_watchlist` returns
the empty list (the function is total, so no error is raised). -/
theorem get_watchlist_unknown_empty (db : Db) (name : String)
    (h : ∀ w ∈ db.watchlists, w.name = name →
      ∀ ws ∈ db.watchlist_symbols, ws.watchlist_id ≠ w.id) :
    get_watchlist db name = [] := by
  unfold get_watchlist
  apply foldl_append_map_empty
  intro w hw
  have hmem := List.mem_filter.mp hw
  have hname : w.name = name := by simpa using hmem.2
  have hempty : db.watchlist_symbols.filter (fun ws => ws.watchlist_id == w.id) = [] := by
    apply List.filter_eq_nil_iff.mpr
    intro ws hws
    simpa using h w hmem.1 hname ws hws
  rw [hempty]
  rfl

/-- Closed witness for C10: a store holding the header `empty` with no
membership rows, read back as the empty list. -/
theorem get_watchlist_unknown_empty_witness :
    (∀ w ∈ dbEmptyWatchlist.watchlists, w.name = "empty" →
      ∀ ws ∈ dbEmptyWatchlist.watchlist_symbols, ws.watchlist_id ≠ w.id) ∧
    get_watchlist dbEmptyWatchlist "empty" = [] :=
  ⟨by decide, get_watchlist_unknown_empty dbEmptyWatchlist "empty" (by decide)⟩

/-- C7. Usage-window counting: `get_api_usage` counts exactly the records
of the requested source whose timestamp is at or after `now − hours`
(stated as the source-restricted, window-restricted record count); with
records for source `X` at `t − 30`, `t − 10` and `t − 1` hours — and any
records of other sources alongside — the 24-hour window counts 2 and the
48-hour window counts 3. -/
theorem api_usage_window (t : Int) (others : List ApiCall)
    (h : ∀ c ∈ others, c.source ≠ "X") :
    get_api_usage (usageDb t others) t "X" 24 = 2 ∧
    get_api_usage (usageDb t others) t "X" 48 = 3 ∧
    (∀ (db : Db) (now : Int) (source : String) (hours : Int),
      get_api_usage db now source hours =
        ((db.api_calls.filter (fun c => c.source == source)).filter
          (fun c => decide (now - hours ≤ c.timestamp))).length) := by
  have hothers : ∀ k : Int,
      others.filter (fun c => c.source == ("X" : String)
        && decide (t ≤ c.timestamp + k)) = [] := by
    intro k
    apply List.filter_eq_nil_iff.mpr
    intro c hc
    simp [beq_eq_false_iff_ne.mpr (h c hc)]
  refine ⟨?_, ?_, ?_⟩
  · have h30 : ¬(t ≤ t - 30 + 24) := by omega
    have h10 : t ≤ t - 10 + 24 := by omega
    have h1 : t ≤ t - 1 + 24 := by omega
    simp [get_api_usage, usageDb, List.filter_append, List.filter_cons, h30, h10, h1,
      hothers 24]
  · have h30 : t ≤ t - 30 + 48 := by omega
    have h10 : t ≤ t - 10 + 48 := by omega
    have h1 : t ≤ t - 1 + 48 := by omega
    simp [get_api_usage, usageDb, List.filter_append, List.filter_cons, h30, h10, h1,
      hothers 48]
  · intro db now source hours
    unfold get_api_usage
    rw [List.filter_filter]
    apply congrArg List.length
    apply List.filter_congr
    intro c _
    exact Bool.and_comm _ _

/-- Closed witness for C7 at `t = 100` with one record of a foreign source
inside the window. -/
theorem api_usage_window_witness :
    (∀ c ∈ [(⟨"Y", "history", "", 99⟩ : ApiCall)], c.source ≠ "X") ∧
    (get_api_usage (usageDb 100 [⟨"Y", "history", "", 99⟩]) 100 "X" 24 = 2 ∧
    get_api_usage (usageDb 100 [⟨"Y", "history", "", 99⟩]) 100 "X" 48 = 3 ∧
    (∀ (db : Db) (now : Int) (source : String) (hours : Int),
      get_api_usage db now source hours =
        ((db.api_calls.filter (fun c => c.source == source)).filter
          (fun c => decide (now - hours ≤ c.timestamp))).length)) :=
  ⟨by decide, api_usage_window 100 [⟨"Y", "history", "", 99⟩] (by decide)⟩

/-! Helper lemmas about create-if-absent schema initialization. -/

theorem mem_foldl_createIfAbsent_of_mem_acc (x : String) :
    ∀ (l acc : List String), x ∈ acc → x ∈ l.foldl createIfAbsent acc := by
  intro l
  induction l with
  | nil => intro acc hx; exact hx
  | cons a as ih =>
    intro acc hx
    rw [List.foldl_cons]
    apply ih
    unfold createIfAbsent
    by_cases ha : a ∈ acc
    · rwa [if_pos ha]
    · rw [if_neg ha]; exact List.mem_append_left _ hx

theorem mem_foldl_createIfAbsent_of_mem (x : String) :
    ∀ (l acc : List String), x ∈ l → x ∈ l.foldl createIfAbsent acc := by
  intro l
  induction l with
  | nil => intro acc hx; exact absurd hx (List.not_mem_nil x)
  | cons a as ih =>
    intro acc hx
    rw [List.foldl_cons]
    rcases List.mem_cons.mp hx with hxa | hxs
    · apply mem_foldl_createIfAbsent_of_mem_acc
      unfold createIfAbsent
      by_cases ha : a ∈ acc
      · rw [if_pos ha]; exact hxa ▸ ha
      · rw [if_neg ha]; exact hxa ▸ List.mem_append_right _ (List.mem_singleton.mpr rfl)
    · exact ih _ hxs

theorem foldl_createIfAbsent_id :
    ∀ (l acc : List String), (∀ x ∈ l, x ∈ acc) → l.foldl createIfAbsent acc = acc := by
  intro l
  induction l with
  | nil => intro acc _; rfl
  | cons a as ih =>
    intro acc h
    rw [List.foldl_cons]
    have ha : createIfAbsent acc a = acc := by
      unfold createIfAbsent
      rw [if_pos (h a (List.mem_cons_self a as))]
    rw [ha]
    exact ih acc (fun x hx => h x (List.mem_cons_of_mem a hx))

/-- C6. Schema initialization: `init_schema` creates all six entity tables
and the two required indexes with create-if-absent semantics, and running
it on an already-initialized store is the identity — it does not alter
existing structure. -/
theorem init_schema_create_if_absent (s : Schema)
    (h1 : ∀ t ∈ entityTables, t ∈ s.tables)
    (h2 : ∀ i ∈ schemaIndexes, i ∈ s.indexes) :
    entityTables.length = 6 ∧
    (∀ s2 : Schema, ∀ t ∈ entityTables, t ∈ (init_schema s2).tables) ∧
    (∀ s2 : Schema, ∀ i ∈ schemaIndexes, i ∈ (init_schema s2).indexes) ∧
    init_schema s = s := by
  refine ⟨rfl, ?_, ?_, ?_⟩
  · intro s2 t ht
    exact mem_foldl_createIfAbsent_of_mem t entityTables s2.tables ht
  · intro s2 i hi
    exact mem_foldl_createIfAbsent_of_mem i schemaIndexes s2.indexes hi
  · unfold init_schema
    rw [foldl_createIfAbsent_id entityTables s.tables h1,
      foldl_createIfAbsent_id schemaIndexes s.indexes h2]

/-- Closed witness for C6 at a fully-initialized schema. -/
theorem init_schema_create_if_absent_witness :
    (∀ t ∈ entityTables, t ∈ schemaInit.tables) ∧
    (∀ i ∈ schemaIndexes, i ∈ schemaInit.indexes) ∧
    (entityTables.length = 6 ∧
    (∀ s2 : Schema, ∀ t ∈ entityTables, t ∈ (init_schema s2).tables) ∧
    (∀ s2 : Schema, ∀ i ∈ schemaIndexes, i ∈ (init_schema s2).indexes) ∧
    init_schema schemaInit = schemaInit) :=
  ⟨by decide, by decide,
    init_schema_create_if_absent schemaInit (by decide) (by decide)⟩

/-- C5 counterexample. From a freshly connected state (stored handle `0`,
one connection opened), a repeated `connect()` call does not return the
existing connection: it returns the distinct fresh handle `1` and a second
connection has been opened. -/
theorem connect_not_idempotent_counterexample :
    (connect ⟨none, 0⟩).1.conn = some 0 ∧
    (connect (connect ⟨none, 0⟩).1).2 = 1 ∧
    (1 : Nat) ≠ 0 ∧
    (connect (connect ⟨none, 0⟩).1).1.opened = 2 :=
  ⟨rfl, rfl, by decide, rfl⟩

/-- C5 amended. `connect()` always opens a fresh connection, stores it and
returns it — a repeated call yields a different handle than the previous
one, never the existing connection — while `disconnect()` on a
disconnected state is a no-op. -/
theorem connect_always_opens_fresh (s : ConnState) (n : Nat) :
    (connect s).2 = s.opened ∧
    (connect s).1.conn = some s.opened ∧
    (connect s).1.opened = s.opened + 1 ∧
    (connect (connect s).1).2 ≠ (connect s).2 ∧
    disconnect ⟨none, n⟩ = ⟨none, n⟩ := by
  refine ⟨rfl, rfl, rfl, ?_, rfl⟩
  simp [connect]

/-- C1. Watchlist replace bug: `create_watchlist` deletes only the header
row of the old watchlist, never its `watchlist_symbols` membership rows;
since the store reuses the deleted maximal rowid, the recreated header
picks up the orphaned members, so recreating `tech` (first `[AAPL, MSFT]`,
then `[GOOGL]`) makes `get_watchlist` return the union of both symbol
lists instead of exactly `[GOOGL]`, and all three membership rows sit in
the table attached to the same watchlist id. -/
theorem watchlist_replace_keeps_old_members :
    get_watchlist (create_watchlist (create_watchlist emptyDb "tech" ["AAPL", "MSFT"])
        "tech" ["GOOGL"]) "tech" = ["AAPL", "MSFT", "GOOGL"] ∧
    get_watchlist (create_watchlist (create_watchlist emptyDb "tech" ["AAPL", "MSFT"])
        "tech" ["GOOGL"]) "tech" ≠ ["GOOGL"] ∧
    (create_watchlist (create_watchlist emptyDb "tech" ["AAPL", "MSFT"])
        "tech" ["GOOGL"]).watchlist_symbols
      = [⟨1, "AAPL"⟩, ⟨1, "MSFT"⟩, ⟨1, "GOOGL"⟩] := by
  refine ⟨?_, ?_, ?_⟩ <;> decide

end FinancePipeline
